import Mathlib

/-!
Verification of the ms-swift inference/preprocessing layer against its
specification.  The Python sources under `swift/llm` are shallowly embedded:
pure computations become Lean functions, raised exceptions become `Except`,
and the mutable per-call state of the loops is passed explicitly.
-/

namespace MSSwift

/-! ### Protocol basics (`swift/llm/infer/protocol.py` shapes used below) -/

/-- Categorical reason why a generation stopped: `stop` or `length`
(`Option FinishReason` with `none` standing for Python `None`). -/
inductive FinishReason where
  | stop
  | length
deriving DecidableEq, Repr

/-- One tool-call record as built by `InferEngine._get_toolcall`:
`ChatCompletionMessageToolCall(id=..., type='function', function=Function(name, arguments))`. -/
structure ChatCompletionMessageToolCall where
  id : String
  type : String
  name : String
  arguments : Option String
deriving DecidableEq, Repr

namespace InferEngine

/-- `InferEngine._get_toolcall` (swift/llm/infer/base.py, lines 139-150):

```python
if is_finished:
    return None
action, action_input = split_action_action_input(response)
if action is None:
    return None
return [ChatCompletionMessageToolCall(id=f'toolcall-{random_uuid()}',
        type='function', function=Function(name=action, arguments=action_input))]
```

`split_action_action_input` lives outside the embedded sources, so it is a
parameter; `random_uuid` is passed in as the fresh uuid string. -/
def getToolcall (split : String → Option String × Option String) (uuid : String)
    (response : String) (is_finished : Bool) : Option (List ChatCompletionMessageToolCall) :=
  if is_finished then
    none
  else
    let p := split response
    match p.1 with
    | none => none
    | some action =>
        some [{ id := "toolcall-" ++ uuid, type := "function",
                name := action, arguments := p.2 }]

/-- Result of `InferEngine.set_default_max_tokens`: the resolved
`request_config.max_tokens` together with the warnings that were logged. -/
structure MaxTokensResult where
  max_tokens : Int
  warnings : List String
deriving DecidableEq, Repr

/-- `InferEngine.set_default_max_tokens` (swift/llm/infer/base.py, lines 184-207).
`max_model_len = none` models the attribute being `None`; a raised
`ValueError` becomes `Except.error`. -/
def set_default_max_tokens (strict : Bool) (max_model_len : Option Int)
    (num_tokens : Int) (max_tokens : Option Int) : Except String MaxTokensResult :=
  let mmlWarn : Int × List String :=
    match max_model_len with
    | none => (8192, ["The current model is unable to retrieve max_model_len. It is set to the default value of 8192."])
    | some v => (v, [])
  let max_max_tokens := mmlWarn.1 - num_tokens
  match max_tokens with
  | none => .ok { max_tokens := max_max_tokens, warnings := mmlWarn.2 }
  | some mt =>
      if max_max_tokens < mt then
        if strict then
          .error "Your prompt has too many tokens for the configured max_tokens and maximum model length."
        else
          .ok { max_tokens := max_max_tokens,
                warnings := mmlWarn.2 ++ ["max_model_len - num_tokens < max_tokens. Setting max_tokens."] }
      else
        .ok { max_tokens := mt, warnings := mmlWarn.2 }

/-- The amended C3 behaviour, stated from the spec's words as corrected:
`max_max_tokens = max_model_len - prompt_token_count`, where an undetermined
`max_model_len` falls back to 8192 with a warning regardless of strictness;
an absent `max_tokens` defaults to `max_max_tokens`; a request above the
budget raises in strict mode and clamps with a warning in lenient mode;
a request within budget is kept. -/
def amendedMaxTokensSpec (strict : Bool) (max_model_len : Option Int)
    (num_tokens : Int) (max_tokens : Option Int) : Except String MaxTokensResult :=
  let fallbackWarnings : List String :=
    if max_model_len = none then
      ["The current model is unable to retrieve max_model_len. It is set to the default value of 8192."]
    else []
  let budget := (max_model_len.getD 8192) - num_tokens
  match max_tokens with
  | none => .ok { max_tokens := budget, warnings := fallbackWarnings }
  | some mt =>
      if budget < mt then
        if strict then
          .error "Your prompt has too many tokens for the configured max_tokens and maximum model length."
        else
          .ok { max_tokens := budget,
                warnings := fallbackWarnings ++ ["max_model_len - num_tokens < max_tokens. Setting max_tokens."] }
      else
        .ok { max_tokens := mt, warnings := fallbackWarnings }

end InferEngine

namespace PtEngine

/-- `PtEngine._get_finish_reason` (swift/llm/infer/infer_engine/pt_engine.py,
lines 156-165): note that the quantity the source compares against
`max_new_tokens` is its `num_prompt_tokens` argument. -/
def _get_finish_reason (max_new_tokens : Nat) (num_prompt_tokens : Nat)
    (is_finished : Bool) : Option FinishReason :=
  if is_finished then
    if num_prompt_tokens ≥ max_new_tokens then some .length else some .stop
  else
    none

/-- The fields of the resolved generation configuration consumed by
`PtEngine._infer_full` / `_infer_stream` in this embedding. -/
structure GenerationConfigLite where
  max_new_tokens : Nat
  pad_token_id : Int
  num_beams : Nat
deriving DecidableEq, Repr

/-- One choice of a non-streaming `ChatCompletionResponse` as built by
`PtEngine._infer_full`; the decoded message text is kept as the generated
token ids (decoding is a collaborator concern). -/
structure ChoiceFull where
  index : Nat
  content_ids : List Int
  tool_calls : Option (List ChatCompletionMessageToolCall)
  finish_reason : Option FinishReason
deriving DecidableEq, Repr

/-- One row of the loop in `PtEngine._infer_full` (pt_engine.py, lines
316-338): mask out pad tokens, then build the choice.  The source passes
`finish_reason=None` literally and calls `self._get_toolcall(response, True)`.
`split`/`uuid` parameterize the external action parser and uuid source. -/
def inferFullRow (split : String → Option String × Option String) (uuid : String)
    (decode : List Int → String) (cfg : GenerationConfigLite)
    (row : List Int) : ChoiceFull :=
  let generate_ids := row.filter (fun t => t ≠ cfg.pad_token_id)
  let response := decode generate_ids
  let toolcall := InferEngine.getToolcall split uuid response true
  { index := 0, content_ids := generate_ids, tool_calls := toolcall,
    finish_reason := none }

/-- The sampling-relevant fields of the engine's default
`GenerationConfig` (`self.generation_config` in `PtEngine`). -/
structure EngineGenerationConfig where
  do_sample : Bool
  temperature : ℚ
  top_k : Int
  top_p : ℚ
  repetition_penalty : ℚ
  num_beams : Nat
deriving DecidableEq, Repr

/-- The sampling-relevant fields of a `RequestConfig`; `none` is Python
`None` (caller left the field unset). -/
structure RequestConfigSampling where
  temperature : Option ℚ
  top_k : Option Int
  top_p : Option ℚ
  repetition_penalty : Option ℚ
  num_beams : Option Nat
deriving DecidableEq, Repr

/-- The sampling fields of the `GenerationConfig` that
`PtEngine._prepare_generation_config` produces. -/
structure PreparedSampling where
  do_sample : Bool
  temperature : ℚ
  top_k : Int
  top_p : ℚ
  repetition_penalty : ℚ
  num_beams : Nat
deriving DecidableEq, Repr

/-- `PtEngine._prepare_generation_config` (pt_engine.py, lines 76-102),
restricted to the sampling fields the claim is about.  The `kwargs` dict
mutations become successive rebindings:

```python
for key in ['temperature', 'top_k', 'top_p', 'repetition_penalty', 'num_beams']:
    kwargs[key] = request value if not None else engine default
if not self.generation_config.do_sample:
    kwargs['temperature'] = 0
if kwargs['temperature'] == 0:
    kwargs['do_sample'] = False; kwargs['temperature'] = 1
    kwargs['top_p'] = 1; kwargs['top_k'] = 50
else:
    kwargs['do_sample'] = True
```
-/
def _prepare_generation_config (engine : EngineGenerationConfig)
    (req : RequestConfigSampling) : PreparedSampling :=
  let temperature := req.temperature.getD engine.temperature
  let top_k := req.top_k.getD engine.top_k
  let top_p := req.top_p.getD engine.top_p
  let repetition_penalty := req.repetition_penalty.getD engine.repetition_penalty
  let num_beams := req.num_beams.getD engine.num_beams
  let temperature := if ¬ engine.do_sample then 0 else temperature
  if temperature = 0 then
    { do_sample := false, temperature := 1, top_k := 50, top_p := 1,
      repetition_penalty := repetition_penalty, num_beams := num_beams }
  else
    { do_sample := true, temperature := temperature, top_k := top_k,
      top_p := top_p, repetition_penalty := repetition_penalty,
      num_beams := num_beams }

/-- Claim C5's resolution rule, stated from the spec's words: field-by-field
resolution takes the request value if not null, else the engine default;
if the resolved temperature collapses to deterministic sampling (it is
exactly 0, or the engine default has `do_sample=false`), force
`do_sample=false, temperature=1, top_p=1, top_k=50`; otherwise
`do_sample=true` with the resolved fields kept. -/
def specResolveSampling (engine : EngineGenerationConfig)
    (req : RequestConfigSampling) : PreparedSampling :=
  let resolvedTemperature := req.temperature.getD engine.temperature
  if resolvedTemperature = 0 ∨ engine.do_sample = false then
    { do_sample := false, temperature := 1, top_k := 50, top_p := 1,
      repetition_penalty := req.repetition_penalty.getD engine.repetition_penalty,
      num_beams := req.num_beams.getD engine.num_beams }
  else
    { do_sample := true, temperature := resolvedTemperature,
      top_k := req.top_k.getD engine.top_k,
      top_p := req.top_p.getD engine.top_p,
      repetition_penalty := req.repetition_penalty.getD engine.repetition_penalty,
      num_beams := req.num_beams.getD engine.num_beams }

/-- `PtLoRARequest` (pt_engine.py, lines 25-29). -/
structure PtLoRARequest where
  lora_name : String
  lora_int_id : Int
  lora_local_path : String
deriving DecidableEq, Repr

/-- Result of one `PtEngine._get_adapter_names` call: the updated
`_lora_request_pool` (a name-keyed mapping, insertion-ordered), the names
for which `Swift.from_pretrained` was invoked during this call, and the
returned adapter-name list. -/
structure AdapterNamesResult where
  pool : List (String × PtLoRARequest)
  loaded : List String
  names : List String
deriving DecidableEq, Repr

/-- `PtEngine._get_adapter_names` (pt_engine.py, lines 287-293):

```python
if lora_request.lora_name in self._lora_request_pool:
    assert lora_request == self._lora_request_pool[lora_request.lora_name]
else:
    self._lora_request_pool[lora_request.lora_name] = lora_request
    Swift.from_pretrained(...)
return [lora_request.lora_name]
```

A failed assertion becomes `Except.error`. -/
def _get_adapter_names (pool : List (String × PtLoRARequest))
    (lora_request : PtLoRARequest) : Except String AdapterNamesResult :=
  match pool.lookup lora_request.lora_name with
  | some existing =>
      if existing = lora_request then
        .ok { pool := pool, loaded := [], names := [lora_request.lora_name] }
      else
        .error "AssertionError: lora_request == self._lora_request_pool[lora_request.lora_name]"
  | none =>
      .ok { pool := pool ++ [(lora_request.lora_name, lora_request)],
            loaded := [lora_request.lora_name],
            names := [lora_request.lora_name] }

/-- One emitted streaming choice for a row of `PtEngine._infer_stream`:
the newly printable part of the row (kept as token ids; text detokenization
is a collaborator concern) and the finish reason the source computes for
it. -/
structure StreamEmission where
  delta_ids : List Int
  finish_reason : Option FinishReason
deriving DecidableEq, Repr

/-- Mutable per-row state of the `_infer_stream` loop:
`raw_batched_generate_ids` row, `is_finished[i]`, `token_idxs[i]`. -/
structure StreamRow where
  raw : List Int
  finished : Bool
  token_idx : Nat
deriving DecidableEq, Repr

/-- The per-row body of the `_infer_stream` while-loop (pt_engine.py, lines
246-283): skip finished rows, mask pads, update `is_finished[i]`
(`all_is_finished or is_finished[i] or generate_ids[-1] == pad_token_id`,
evaluated on the already pad-masked ids exactly as the source does), emit
only when the delta is non-empty or the row just finished, and advance
`token_idxs[i]` on emission. -/
def processRow (cfg : GenerationConfigLite) (num_prompt_tokens : Nat)
    (all_is_finished : Bool) (r : StreamRow) : Option StreamEmission × StreamRow :=
  if r.finished then
    (none, r)
  else
    let generate_ids := r.raw.filter (fun t => t ≠ cfg.pad_token_id)
    let finished :=
      all_is_finished || r.finished ||
        (decide (0 < generate_ids.length) && decide (generate_ids.getLastD 0 = cfg.pad_token_id))
    let delta := generate_ids.drop r.token_idx
    if delta = [] ∧ finished = false then
      (none, { r with finished := finished })
    else
      (some { delta_ids := delta,
              finish_reason := _get_finish_reason cfg.max_new_tokens num_prompt_tokens finished },
       { raw := r.raw, finished := finished, token_idx := generate_ids.length })

/-- One pass of the `_infer_stream` loop body over all batch rows, giving
the batch-shaped `res` list (with `None` for rows that produced nothing)
and the updated row states. -/
def processBatch (cfg : GenerationConfigLite) (num_prompt_tokens : Nat)
    (all_is_finished : Bool) (rows : List StreamRow) :
    List (Option StreamEmission) × List StreamRow :=
  let pairs := rows.map (processRow cfg num_prompt_tokens all_is_finished)
  (pairs.map Prod.fst, pairs.map Prod.snd)

/-- Appending the next `batched_tokens` chunk from the streamer to
`raw_batched_generate_ids`, row by row. -/
def appendTokens (rows : List StreamRow) (chunk : List (List Int)) : List StreamRow :=
  rows.zipWith (fun r ts => { r with raw := r.raw ++ ts }) chunk

/-- `PtEngine._infer_stream` (pt_engine.py, lines 181-285): the batched
streaming decode loop.  `streamer` lists the token batches
`next(streamer)` produces (one inner list per batch row); after the
streamer is exhausted (`StopIteration`) the body runs once more with
`all_is_finished = True`.  A step's batch result is yielded only `if
any(res)`.  The `num_beams != 1` guard raises (`Except.error`) before the
generation thread is started, so an erroring call yields nothing. -/
def _infer_stream (cfg : GenerationConfigLite) (num_prompt_tokens : Nat)
    (batch_size : Nat) (streamer : List (List (List Int))) :
    Except String (List (List (Option StreamEmission))) :=
  if cfg.num_beams ≠ 1 then
    .error "Streaming generation does not support beam search."
  else
    let init : List StreamRow := List.replicate batch_size { raw := [], finished := false, token_idx := 0 }
    let step := fun (acc : List (List (Option StreamEmission)) × List StreamRow) chunk =>
      let rows := appendTokens acc.2 chunk
      let p := processBatch cfg num_prompt_tokens false rows
      (if p.1.any Option.isSome then acc.1 ++ [p.1] else acc.1, p.2)
    let st := streamer.foldl step ([], init)
    let pLast := processBatch cfg num_prompt_tokens true st.2
    .ok (if pLast.1.any Option.isSome then st.1 ++ [pLast.1] else st.1)

/-- The sub-batch splitting performed by the `while i < len(infer_requests)`
loops of `PtEngine.infer` (pt_engine.py, lines 403-423): successive slices
`infer_requests[i:i + max_batch_size]`.  The source loop never terminates
when `max_batch_size = 0`; that unreachable case (the parameter defaults to
16) is mapped to `[]` so the function totalizes. -/
def inferChunks (max_batch_size : Nat) (infer_requests : List α) : List (List α) :=
  match max_batch_size, infer_requests with
  | 0, _ => []
  | _, [] => []
  | b + 1, x :: xs =>
      (x :: xs).take (b + 1) :: inferChunks (b + 1) ((x :: xs).drop (b + 1))
termination_by infer_requests.length
decreasing_by
  simp only [List.length_drop, List.length_cons]
  omega

/-- `PtEngine.infer._infer_full` (pt_engine.py, lines 403-411): `res +=
self._infer(sub_batch, ...)` over the successive sub-batches, in order.
`inferBatch` abstracts `self._infer` on one sub-batch. -/
def infer_full (inferBatch : List α → List β) (max_batch_size : Nat)
    (infer_requests : List α) : List β :=
  ((inferChunks max_batch_size infer_requests).map inferBatch).flatten

end PtEngine

namespace EncodePreprocessor

/-- `EncodePreprocessor.single_map` (swift/llm/dataset/utils.py, lines
278-281):

```python
def single_map(self, data):
    data = self.template.encode(data)
    if data:
        return data
```

`encode : α → Except ε (List β)` models `self.template.encode`: a raised
exception is `Except.error`, the returned mapping is its entry list, with
the empty list standing for a falsy result.  No exception is caught here;
an encode error propagates. -/
def single_map (encode : α → Except ε (List β)) (data : α) :
    Except ε (Option (List β)) :=
  match encode data with
  | .error e => .error e
  | .ok d => .ok (if d.isEmpty then none else some d)

/-- The `num_proc == 1` eager path of `EncodePreprocessor.__call__`
(dataset/utils.py, lines 263-268): iterate the dataset, keep the non-`None`
results of `single_map` in order.  An exception raised by an example's
encode step propagates out of the loop, aborting the pass. -/
def call_num_proc_one (encode : α → Except ε (List β)) :
    List α → Except ε (List (List β))
  | [] => .ok []
  | data :: rest =>
      match single_map encode data with
      | .error e => .error e
      | .ok none => call_num_proc_one encode rest
      | .ok (some d) =>
          match call_num_proc_one encode rest with
          | .error e => .error e
          | .ok tail => .ok (d :: tail)

/-- The amended C6 behaviour, stated from the spec's words as corrected:
the eager pre-encoding pass encodes the examples in order; an example whose
encode step returns an empty (falsy) result is skipped; an example whose
encode step raises aborts the whole pass with that error (no per-example
recovery in eager pre-encoding). -/
def amendedEagerPassSpec (encode : α → Except ε (List β)) :
    List α → Except ε (List (List β))
  | [] => .ok []
  | data :: rest =>
      match encode data with
      | .error e => .error e
      | .ok d =>
          match amendedEagerPassSpec encode rest with
          | .error e => .error e
          | .ok tail => .ok (if d.isEmpty then tail else d :: tail)

/-- Sequencing an `Except`-valued map over a list, failing at the first
error (the behaviour of a Python `for` loop that calls a possibly raising
function and collects the results). -/
def mapExcept (f : α → Except ε γ) : List α → Except ε (List γ)
  | [] => .ok []
  | a :: l =>
      match f a with
      | .error e => .error e
      | .ok b =>
          match mapExcept f l with
          | .error e => .error e
          | .ok tail => .ok (b :: tail)

/-- `datasets.Dataset.shard(num_shards=n, index=i, contiguous=True)` as
called by `_mp_map_unordered` (dataset/utils.py, line 300) — the external
library's contiguous split: `div, mod = divmod(len, n)`;
`start = div*i + min(i, mod)`; `end = start + div + (1 if i < mod else 0)`. -/
def contiguousShard (num_shards index : Nat) (dataset : List α) : List α :=
  let dv := dataset.length / num_shards
  let md := dataset.length % num_shards
  let start := dv * index + min index md
  let stop := start + dv + (if index < md then 1 else 0)
  (dataset.take stop).drop start

/-- The worker body `_map_mp_single` (dataset/utils.py, lines 285-291):
`result[i] = single_map(data)` over the shard in order, then
`res = [data for data in result if data is not None]`.  An encode exception
propagates out of the worker. -/
def _map_mp_single (encode : α → Except ε (List β)) (shard : List α) :
    Except ε (List (List β)) :=
  match mapExcept (single_map encode) shard with
  | .error e => .error e
  | .ok result => .ok result.reduceOption

/-- `EncodePreprocessor.mp_map` with `_mp_map_unordered` (dataset/utils.py,
lines 283-322): `num_proc` is first clamped to `min(num_proc, len(dataset))`;
the dataset is split into that many contiguous shards; each worker `rank`
computes `_map_mp_single` of its shard; the final `(rank, res)` messages
arrive from the queue in an arbitrary completion order, listed here by
`order` (the per-example progress `None` messages do not affect the
result); each arrival is written to `shard_results[rank]`; finally the
shard results are concatenated in rank order. -/
def mp_map (encode : α → Except ε (List β)) (dataset : List α)
    (num_proc : Nat) (order : List Nat) : Except ε (List (List β)) :=
  let np := min num_proc dataset.length
  let shards := (List.range np).map (fun rank => contiguousShard np rank dataset)
  match mapExcept (_map_mp_single encode) shards with
  | .error e => .error e
  | .ok results =>
      let shard_results := order.foldl
        (fun (acc : List (Option (List (List β)))) rank =>
          acc.set rank (some (results.getD rank [])))
        (List.replicate np none)
      .ok ((shard_results.map (fun r => r.getD [])).flatten)

/-- The per-shard outcome of an eager encoding pass whose encoder never
raises: keep, in order, the non-empty encodings (helper for stating C7). -/
def pureWorker (enc : α → List β) (shard : List α) : List (List β) :=
  shard.filterMap (fun a => if (enc a).isEmpty then none else some (enc a))

/-- The start offset of contiguous shard `i` in a length-`len` dataset split
into `np` shards (proof helper: `contiguousShard np i` is the slice from
`shardBoundary np len i` to `shardBoundary np len (i+1)`). -/
def shardBoundary (np : Nat) (len : Nat) (i : Nat) : Nat :=
  (len / np) * i + min i (len % np)

end EncodePreprocessor

namespace LLMIterableDataset

/-- One fetch outcome of the wrapped dataset's iterator during a pass:
`some a` is a truthy example, `none` is a falsy one (for which the source
raises `ValueError`, caught by the generic `except Exception` arm).  A full
pass of the underlying dataset is the list of its fetch outcomes; iterating
the same dataset again repeats the same pass. -/
abbrev Fetch (α : Type) := Option α

/-- One fetch step of `LLMIterableDataset.__iter__` (dataset/utils.py,
lines 96-118) from state `(pos, retries)`:

* inner `while retries < max_retries` guard false: back to the outer loop
  (`retries` reset), no fetch;
* `next(iterator)` past the end of the pass: `StopIteration` — a fresh
  iterator is created (`pos := 0`) and the inner loop breaks;
* a truthy value: it is yielded, the inner loop breaks (retries reset by
  the next outer iteration);
* a falsy value: `ValueError` is raised and caught, `retries += 1`; when
  `retries >= max_retries` the error is re-raised (second component
  `none`), otherwise the inner loop continues at the next position.
-/
def iterStep (pass_ : List (Fetch α)) (max_retries : Nat) (s : Nat × Nat) :
    Option α × Option (Nat × Nat) :=
  if s.2 < max_retries then
    match pass_.get? s.1 with
    | none => (none, some (0, 0))
    | some (some a) => (some a, some (s.1 + 1, 0))
    | some none =>
        if max_retries ≤ s.2 + 1 then (none, none)
        else (none, some (s.1 + 1, s.2 + 1))
  else
    (none, some (s.1, 0))

/-- Running `iterStep` for `fuel` fetches from state `s`: the list of
yielded examples, and the final state — `none` when the iteration ended by
re-raising an example's error, `some s` when it is still running (the
source loop has no normal-termination exit). -/
def iterRun (pass_ : List (Fetch α)) (max_retries : Nat) :
    Nat × Nat → Nat → List α × Option (Nat × Nat)
  | s, 0 => ([], some s)
  | s, fuel + 1 =>
      match iterStep pass_ max_retries s with
      | (out, none) => (out.toList, none)
      | (out, some s') =>
          match iterRun pass_ max_retries s' fuel with
          | (rest, fin) => (out.toList ++ rest, fin)

/-- The number of consecutive falsy fetches at the head of a pass
fragment. -/
def leadNones : List (Fetch α) → Nat
  | [] => 0
  | none :: t => leadNones t + 1
  | some _ :: _ => 0

end LLMIterableDataset

end MSSwift

namespace MSSwift

/-! ### Claim theorems C1, C2, C3 -/

/-- Claim C1: for non-streaming requests the claim says the returned
`finish_reason` is `length` iff the completion token count reached
`max_tokens`, else `stop`.  The code disagrees: `PtEngine._infer_full`
builds every choice with `finish_reason=None`, and the helper
`PtEngine._get_finish_reason` compares the prompt token count, not the
completion count, against `max_new_tokens`.  Concretely: with
`max_new_tokens = 2` and two non-pad generated tokens the finished
non-streaming choice still carries `finish_reason = none`, while the helper,
fed the prompt length as the source does, answers `length` for a 5-token
prompt and `stop` for a 1-token prompt irrespective of completion count. -/
theorem C1_finish_reason_code_bug :
    (PtEngine.inferFullRow (fun _ => (none, none)) "u" (fun _ => "")
        { max_new_tokens := 2, pad_token_id := 0, num_beams := 1 }
        [7, 8]).finish_reason = none
    ∧ (PtEngine.inferFullRow (fun _ => (none, none)) "u" (fun _ => "")
        { max_new_tokens := 2, pad_token_id := 0, num_beams := 1 }
        [7, 8]).content_ids.length = 2
    ∧ PtEngine._get_finish_reason 2 5 true = some .length
    ∧ PtEngine._get_finish_reason 2 1 true = some .stop := by
  refine ⟨rfl, rfl, rfl, rfl⟩

/-- Claim C2: the claim says a tool call is emitted only when the finished
flag is set and an action parses, and that nothing is emitted when the flag
is unset.  The code's test is inverted (`if is_finished: return None`): a
finished response never yields a tool call, for any parser, and an
unfinished response with a parse match yields one. -/
theorem C2_toolcall_code_bug :
    (∀ (split : String → Option String × Option String) (uuid response : String),
        InferEngine.getToolcall split uuid response true = none)
    ∧ InferEngine.getToolcall (fun _ => (some "get_weather", some "beijing"))
        "u1" "whatever" false
      = some [{ id := "toolcall-u1", type := "function",
                name := "get_weather", arguments := some "beijing" }] := by
  exact ⟨fun _ _ _ => rfl, rfl⟩

/-- Claim C3 counterexample: under strict validation with an undetermined
`max_model_len`, the claim requires a configuration error, but
`set_default_max_tokens` succeeds, falling back to 8192 with a warning:
with a 10-token prompt and no requested `max_tokens` it returns
`8192 - 10 = 8182`. -/
theorem C3_strict_no_model_len_counterexample :
    InferEngine.set_default_max_tokens true none 10 none
      = .ok { max_tokens := 8182,
              warnings := ["The current model is unable to retrieve max_model_len. It is set to the default value of 8192."] } := by
  rfl

/-- Claim C3 (amended): `max_max_tokens = max_model_len - prompt_token_count`;
an absent `max_tokens` defaults to it; an over-budget request raises in
strict mode and clamps with a warning in lenient mode (the default); and an
undetermined `max_model_len` falls back to 8192 with a warning regardless of
strictness (strict mode never fails merely because `max_model_len` is
missing). -/
theorem C3_set_default_max_tokens_amended (strict : Bool)
    (max_model_len : Option Int) (num_tokens : Int) (max_tokens : Option Int) :
    InferEngine.set_default_max_tokens strict max_model_len num_tokens max_tokens
      = InferEngine.amendedMaxTokensSpec strict max_model_len num_tokens max_tokens := by
  unfold InferEngine.set_default_max_tokens InferEngine.amendedMaxTokensSpec
  cases max_model_len <;> cases max_tokens <;> simp

/-- Claim C5: the generation configuration produced by
`PtEngine._prepare_generation_config` is exactly the spec's resolution: when
the resolved temperature collapses to deterministic sampling (resolved
temperature is 0, or the engine default has `do_sample=false`), the result
is `do_sample=false, temperature=1, top_p=1, top_k=50`; otherwise
`do_sample=true` with the field-by-field resolution (request value if not
null, else engine default) kept. -/
theorem C5_prepare_generation_config_resolution
    (engine : PtEngine.EngineGenerationConfig)
    (req : PtEngine.RequestConfigSampling) :
    PtEngine._prepare_generation_config engine req
      = PtEngine.specResolveSampling engine req := by
  unfold PtEngine._prepare_generation_config PtEngine.specResolveSampling
  by_cases hd : engine.do_sample <;>
    by_cases ht : req.temperature.getD engine.temperature = 0 <;>
      simp [hd, ht]

/-- Claim C9: the LoRA adapter registry is append-only.  Registering a name
not in the pool appends its definition and loads the adapter (exactly the
one load event for that call); re-registering the same name with an
identical definition leaves the pool untouched, performs no load, and
returns the same adapter name; re-registering the same name with a
different definition fails the assertion. -/
theorem C9_adapter_registry_append_only
    (pool : List (String × PtEngine.PtLoRARequest)) (req : PtEngine.PtLoRARequest) :
    (pool.lookup req.lora_name = none →
      PtEngine._get_adapter_names pool req
        = .ok { pool := pool ++ [(req.lora_name, req)],
                loaded := [req.lora_name], names := [req.lora_name] })
    ∧ (pool.lookup req.lora_name = some req →
      PtEngine._get_adapter_names pool req
        = .ok { pool := pool, loaded := [], names := [req.lora_name] })
    ∧ (∀ other : PtEngine.PtLoRARequest, pool.lookup req.lora_name = some other →
        other ≠ req →
        PtEngine._get_adapter_names pool req
          = .error "AssertionError: lora_request == self._lora_request_pool[lora_request.lora_name]") := by
  refine ⟨fun h => ?_, fun h => ?_, fun other h hne => ?_⟩
  · unfold PtEngine._get_adapter_names
    rw [h]
  · unfold PtEngine._get_adapter_names
    rw [h]
    simp
  · unfold PtEngine._get_adapter_names
    rw [h]
    simp [hne]

/-- Unfolding equation: no sub-batches for an empty request list. -/
theorem inferChunks_nil (bs : Nat) : PtEngine.inferChunks bs ([] : List α) = [] := by
  cases bs with
  | zero => rw [PtEngine.inferChunks]
  | succ b => rw [PtEngine.inferChunks]; simp

/-- Unfolding equation: one sub-batch step on a non-empty request list. -/
theorem inferChunks_cons (b : Nat) (x : α) (xs : List α) :
    PtEngine.inferChunks (b + 1) (x :: xs)
      = (x :: xs).take (b + 1) :: PtEngine.inferChunks (b + 1) ((x :: xs).drop (b + 1)) := by
  rw [PtEngine.inferChunks]

/-- The sub-batches of `PtEngine.infer` concatenate back to the request
list. -/
theorem inferChunks_flatten (bs : Nat) (l : List α) (h : bs ≠ 0) :
    (PtEngine.inferChunks bs l).flatten = l := by
  induction bs, l using PtEngine.inferChunks.induct with
  | case1 l => exact absurd rfl h
  | case2 b hb => rw [inferChunks_nil]; rfl
  | case3 b x xs ih =>
      rw [inferChunks_cons, List.flatten_cons, ih (by omega), List.take_append_drop]

/-- With a positive batch limit, the sub-batch list is empty exactly for an
empty request list. -/
theorem inferChunks_eq_nil_iff (b : Nat) (l : List α) :
    PtEngine.inferChunks (b + 1) l = [] ↔ l = [] := by
  cases l with
  | nil => rw [inferChunks_nil]; simp
  | cons x xs => rw [inferChunks_cons]; simp

/-- The number of sub-batch calls is `ceil(n / max_batch_size)`. -/
theorem inferChunks_length (bs : Nat) (l : List α) (h : bs ≠ 0) :
    (PtEngine.inferChunks bs l).length = (l.length + bs - 1) / bs := by
  induction bs, l using PtEngine.inferChunks.induct with
  | case1 l => exact absurd rfl h
  | case2 b hb =>
      rw [inferChunks_nil]
      simp only [List.length_nil, Nat.zero_add]
      rw [Nat.div_eq_of_lt (by omega)]
  | case3 b x xs ih =>
      rw [inferChunks_cons]
      simp only [List.length_cons]
      rw [ih (by omega)]
      simp only [List.length_drop, List.length_cons]
      rcases Nat.lt_or_ge (xs.length + 1) (b + 1 + 1) with hlt | hge
      · have h1 : xs.length + 1 - (b + 1) + (b + 1) - 1 = b := by omega
        rw [h1, Nat.div_eq_of_lt (by omega)]
        have h2 : xs.length + 1 + (b + 1) - 1 = xs.length + 1 + b := by omega
        rw [h2]
        symm
        apply Nat.div_eq_of_lt_le <;> omega
      · have h2 : xs.length + 1 + (b + 1) - 1
            = (xs.length + 1 - (b + 1) + (b + 1) - 1) + (b + 1) := by omega
        rw [h2, Nat.add_div_right _ (by omega)]

/-- Every sub-batch except the final one has exactly `max_batch_size`
requests. -/
theorem inferChunks_sizes_dropLast (bs : Nat) (l : List α) (h : bs ≠ 0) :
    ((PtEngine.inferChunks bs l).map List.length).dropLast
      = List.replicate ((PtEngine.inferChunks bs l).length - 1) bs := by
  induction bs, l using PtEngine.inferChunks.induct with
  | case1 l => exact absurd rfl h
  | case2 b hb => rw [inferChunks_nil]; rfl
  | case3 b x xs ih =>
      rw [inferChunks_cons]
      by_cases hd : (x :: xs).drop (b + 1) = []
      · rw [hd, inferChunks_nil]
        rfl
      · have hne : PtEngine.inferChunks (b + 1) ((x :: xs).drop (b + 1)) ≠ [] := by
          rw [Ne, inferChunks_eq_nil_iff]; exact hd
        have hlen : (b + 1) ≤ xs.length + 1 := by
          by_contra hc
          exact hd (List.drop_eq_nil_of_le (by simp only [List.length_cons]; omega))
        simp only [List.map_cons]
        rw [List.dropLast_cons_of_ne_nil (by simpa using hne)]
        rw [ih (by omega)]
        have htake : ((x :: xs).take (b + 1)).length = b + 1 := by
          simp only [List.length_take, List.length_cons]; omega
        have hcnt : 1 ≤ (PtEngine.inferChunks (b + 1) ((x :: xs).drop (b + 1))).length :=
          List.length_pos.mpr hne
        simp only [List.length_cons, htake]
        have heq : (PtEngine.inferChunks (b + 1) ((x :: xs).drop (b + 1))).length + 1 - 1
            = ((PtEngine.inferChunks (b + 1) ((x :: xs).drop (b + 1))).length - 1) + 1 := by
          omega
        rw [heq, List.replicate_succ]

/-- `getLastD` of a non-empty list ignores its default. -/
theorem getLastD_of_ne_nil {l : List Nat} (hne : l ≠ []) (d₁ d₂ : Nat) :
    l.getLastD d₁ = l.getLastD d₂ := by
  cases hl : l.getLast? with
  | none => exact absurd (List.getLast?_eq_none_iff.mp hl) hne
  | some y =>
      rw [List.getLastD_eq_getLast?, List.getLastD_eq_getLast?, hl]
      rfl

/-- The final sub-batch is non-empty and no larger than `max_batch_size`. -/
theorem inferChunks_last_size (bs : Nat) (l : List α) (h : bs ≠ 0) :
    1 ≤ ((PtEngine.inferChunks bs l).map List.length).getLastD bs
    ∧ ((PtEngine.inferChunks bs l).map List.length).getLastD bs ≤ bs := by
  induction bs, l using PtEngine.inferChunks.induct with
  | case1 l => exact absurd rfl h
  | case2 b hb =>
      rw [inferChunks_nil]
      simp only [List.map_nil, List.getLastD_nil]
      omega
  | case3 b x xs ih =>
      rw [inferChunks_cons]
      by_cases hd : (x :: xs).drop (b + 1) = []
      · rw [hd, inferChunks_nil]
        simp only [List.map_cons, List.map_nil, List.getLastD_cons, List.getLastD_nil,
          List.length_take, List.length_cons]
        omega
      · have hne : PtEngine.inferChunks (b + 1) ((x :: xs).drop (b + 1)) ≠ [] := by
          rw [Ne, inferChunks_eq_nil_iff]; exact hd
        have hmapne :
            (PtEngine.inferChunks (b + 1) ((x :: xs).drop (b + 1))).map List.length ≠ [] := by
          simpa using hne
        simp only [List.map_cons]
        rw [List.getLastD_cons, getLastD_of_ne_nil hmapne _ (b + 1)]
        exact ih (by omega)

/-- Claim C8: a non-streaming `PtEngine.infer` call over `n` requests with
batch limit `max_batch_size ≥ 1` issues exactly `ceil(n / max_batch_size)`
sequential sub-batch calls — each of size `max_batch_size` except a
possibly smaller (but non-empty) final one — and, when each sub-batch call
returns one response per request in order, the concatenated result is the
length-`n` response list in the original request order. -/
theorem C8_infer_batching (f : α → β) (bs : Nat) (l : List α) (h : 1 ≤ bs) :
    (PtEngine.inferChunks bs l).length = (l.length + bs - 1) / bs
    ∧ ((PtEngine.inferChunks bs l).map List.length).dropLast
        = List.replicate ((PtEngine.inferChunks bs l).length - 1) bs
    ∧ 1 ≤ ((PtEngine.inferChunks bs l).map List.length).getLastD bs
    ∧ ((PtEngine.inferChunks bs l).map List.length).getLastD bs ≤ bs
    ∧ PtEngine.infer_full (fun batch => batch.map f) bs l = l.map f
    ∧ (PtEngine.infer_full (fun batch => batch.map f) bs l).length = l.length := by
  have hbs : bs ≠ 0 := by omega
  have hfull : PtEngine.infer_full (fun batch => batch.map f) bs l = l.map f := by
    unfold PtEngine.infer_full
    rw [← List.map_flatten, inferChunks_flatten bs l hbs]
  refine ⟨inferChunks_length bs l hbs, inferChunks_sizes_dropLast bs l hbs,
    (inferChunks_last_size bs l hbs).1, (inferChunks_last_size bs l hbs).2,
    hfull, ?_⟩
  rw [hfull, List.length_map]

/-- Witness for C8: the spec's scenario — 3 requests with
`max_batch_size = 2` make exactly `ceil(3/2) = 2` sub-batch calls of sizes
2 and 1 and return the 3 responses in order. -/
theorem C8_infer_batching_witness :
    (PtEngine.inferChunks 2 [1, 2, 3]).length = (([1, 2, 3] : List Nat).length + 2 - 1) / 2
    ∧ ((PtEngine.inferChunks 2 [1, 2, 3]).map List.length).dropLast
        = List.replicate ((PtEngine.inferChunks 2 [1, 2, 3]).length - 1) 2
    ∧ 1 ≤ ((PtEngine.inferChunks 2 [1, 2, 3]).map List.length).getLastD 2
    ∧ ((PtEngine.inferChunks 2 [1, 2, 3]).map List.length).getLastD 2 ≤ 2
    ∧ PtEngine.infer_full (fun batch => batch.map (fun n => n + 100)) 2 [1, 2, 3]
        = ([1, 2, 3] : List Nat).map (fun n => n + 100)
    ∧ (PtEngine.infer_full (fun batch => batch.map (fun n => n + 100)) 2 [1, 2, 3]).length
        = ([1, 2, 3] : List Nat).length :=
  C8_infer_batching (fun n => n + 100) 2 [1, 2, 3] (by decide)

/-- Claim C4: whenever the resolved generation configuration has
`num_beams ≠ 1`, the streaming decode loop `PtEngine._infer_stream` raises
the beam-search configuration error before starting generation — the result
is the error, carrying no yielded output, whatever the backend streamer
would have produced. -/
theorem C4_stream_beam_search_fails_fast (cfg : PtEngine.GenerationConfigLite)
    (num_prompt_tokens batch_size : Nat) (streamer : List (List (List Int)))
    (h : cfg.num_beams ≠ 1) :
    PtEngine._infer_stream cfg num_prompt_tokens batch_size streamer
      = .error "Streaming generation does not support beam search." := by
  unfold PtEngine._infer_stream
  rw [if_pos h]

/-- Witness for C4: a beam-search configuration (`num_beams = 2`) with a
non-trivial pending stream still errors out with nothing yielded. -/
theorem C4_stream_beam_search_witness :
    PtEngine._infer_stream { max_new_tokens := 10, pad_token_id := 0, num_beams := 2 }
        3 1 [[[5]], [[6]]]
      = .error "Streaming generation does not support beam search." :=
  C4_stream_beam_search_fails_fast
    { max_new_tokens := 10, pad_token_id := 0, num_beams := 2 } 3 1 [[[5]], [[6]]]
    (by decide)

/-- Witness for C9: concrete registrations exercising all three branches of
the registry contract. -/
theorem C9_adapter_registry_witness :
    (PtEngine._get_adapter_names [] { lora_name := "a", lora_int_id := 1, lora_local_path := "p" }
        = .ok { pool := [("a", { lora_name := "a", lora_int_id := 1, lora_local_path := "p" })],
                loaded := ["a"], names := ["a"] })
    ∧ (PtEngine._get_adapter_names
          [("a", { lora_name := "a", lora_int_id := 1, lora_local_path := "p" })]
          { lora_name := "a", lora_int_id := 1, lora_local_path := "p" }
        = .ok { pool := [("a", { lora_name := "a", lora_int_id := 1, lora_local_path := "p" })],
                loaded := [], names := ["a"] })
    ∧ (PtEngine._get_adapter_names
          [("a", { lora_name := "a", lora_int_id := 1, lora_local_path := "p" })]
          { lora_name := "a", lora_int_id := 2, lora_local_path := "q" }
        = .error "AssertionError: lora_request == self._lora_request_pool[lora_request.lora_name]") := by
  refine ⟨?_, ?_, ?_⟩
  · exact (C9_adapter_registry_append_only [] _).1 rfl
  · exact (C9_adapter_registry_append_only _ _).2.1 rfl
  · exact (C9_adapter_registry_append_only _
      { lora_name := "a", lora_int_id := 2, lora_local_path := "q" }).2.2
      { lora_name := "a", lora_int_id := 1, lora_local_path := "p" } rfl (by decide)

namespace EncodePreprocessor

/-- A contiguous shard is the slice of the dataset between two consecutive
shard boundaries. -/
theorem contiguousShard_eq_slice (np i : Nat) (l : List α) :
    contiguousShard np i l
      = (l.take (shardBoundary np l.length (i + 1))).drop (shardBoundary np l.length i) := by
  unfold contiguousShard shardBoundary
  dsimp only
  congr 2
  rw [Nat.mul_succ]
  rcases Nat.lt_or_ge i (l.length % np) with h | h
  · rw [if_pos h]; omega
  · rw [if_neg (by omega)]; omega

/-- Two adjacent prefixes-slices of a list glue back together. -/
theorem take_glue (a b : Nat) (l : List α) (hab : a ≤ b) :
    l.take a ++ (l.take b).drop a = l.take b := by
  conv_rhs => rw [← List.take_append_drop a (l.take b)]
  rw [List.take_take, Nat.min_eq_left hab]

/-- Shard boundaries are monotone. -/
theorem shardBoundary_mono (np len i : Nat) :
    shardBoundary np len i ≤ shardBoundary np len (i + 1) := by
  unfold shardBoundary
  exact Nat.add_le_add (Nat.mul_le_mul_left _ (Nat.le_succ i)) (by omega)

/-- The first `n` contiguous shards concatenate to the dataset prefix up to
the `n`-th boundary. -/
theorem flatten_shards_aux (np : Nat) (l : List α) :
    ∀ n, ((List.range n).map (fun rank => contiguousShard np rank l)).flatten
      = l.take (shardBoundary np l.length n) := by
  intro n
  induction n with
  | zero => simp [shardBoundary]
  | succ n ih =>
      rw [List.range_succ, List.map_append, List.flatten_append, ih]
      simp only [List.map_cons, List.map_nil, List.flatten_cons, List.flatten_nil,
        List.append_nil]
      rw [contiguousShard_eq_slice, take_glue _ _ _ (shardBoundary_mono np l.length n)]

/-- The `np` contiguous shards concatenate back to the whole dataset. -/
theorem flatten_shards (np : Nat) (l : List α) (h : np ≠ 0) :
    ((List.range np).map (fun rank => contiguousShard np rank l)).flatten = l := by
  rw [flatten_shards_aux]
  have hmd : l.length % np < np := Nat.mod_lt _ (by omega)
  have hdm := Nat.div_add_mod l.length np
  have hcomm : l.length / np * np = np * (l.length / np) := Nat.mul_comm _ _
  have hb : shardBoundary np l.length np = l.length := by
    unfold shardBoundary
    rw [Nat.min_eq_right (by omega)]
    omega
  rw [hb, List.take_length]

/-- Element view of the `shard_results[rank] = res` writes: a slot holds the
writer's value once its rank has been processed, whatever the order. -/
theorem foldl_set_getElem? (v : Nat → γ) (order : List Nat) (acc : List (Option γ)) (j : Nat) :
    (order.foldl (fun a r => a.set r (some (v r))) acc)[j]?
      = if j ∈ order ∧ j < acc.length then some (some (v j)) else acc[j]? := by
  induction order generalizing acc with
  | nil => simp
  | cons r rest ih =>
      rw [List.foldl_cons, ih, List.length_set, List.getElem?_set]
      by_cases hjr : r = j
      · subst hjr
        by_cases hr : r ∈ rest <;> by_cases hj : r < acc.length
        · simp [hr, hj, List.mem_cons]
        · have hnone : acc[r]? = none := List.getElem?_eq_none (by omega)
          simp [hr, hj, hnone]
        · simp [hr, hj, List.mem_cons]
        · have hnone : acc[r]? = none := List.getElem?_eq_none (by omega)
          simp [hr, hj, hnone]
      · have hjr2 : ¬(j = r) := fun hc => hjr hc.symm
        rw [if_neg hjr]
        by_cases hr : j ∈ rest <;> by_cases hj : j < acc.length <;>
          simp [hr, hj, List.mem_cons, hjr2]

/-- `reduceOption` after mapping an option-valued function is `filterMap`. -/
theorem reduceOption_map_eq_filterMap (g : α → Option γ) (l : List α) :
    (l.map g).reduceOption = l.filterMap g := by
  induction l with
  | nil => rfl
  | cons a t ih =>
      cases h : g a <;>
        simp [List.reduceOption_cons_of_none, List.reduceOption_cons_of_some,
          List.filterMap_cons, h, ih]

/-- `mapExcept` of a pointwise-successful function is the successful map. -/
theorem mapExcept_congr_ok (F : α → Except ε γ) (G : α → γ) (l : List α)
    (h : ∀ a ∈ l, F a = .ok (G a)) : mapExcept F l = .ok (l.map G) := by
  induction l with
  | nil => rfl
  | cons a t ih =>
      rw [mapExcept, h a (by simp), ih (fun b hb => h b (by simp [hb]))]
      rfl

/-- `single_map` under a never-raising encoder. -/
theorem single_map_pure (enc : α → List β) (a : α) :
    single_map (fun a => (.ok (enc a) : Except Unit (List β))) a
      = .ok (if (enc a).isEmpty then none else some (enc a)) := rfl

/-- A worker whose encoder never raises returns its shard's non-empty
encodings in shard order. -/
theorem map_mp_single_pure (enc : α → List β) (shard : List α) :
    _map_mp_single (fun a => (.ok (enc a) : Except Unit (List β))) shard
      = .ok (pureWorker enc shard) := by
  unfold _map_mp_single
  rw [mapExcept_congr_ok _ (fun a => if (enc a).isEmpty then none else some (enc a)) shard
    (fun a _ => single_map_pure enc a)]
  dsimp only
  rw [reduceOption_map_eq_filterMap]
  rfl

/-- The sequential `num_proc = 1` pass under a never-raising encoder keeps
the non-empty encodings in dataset order. -/
theorem call_num_proc_one_pure (enc : α → List β) (l : List α) :
    call_num_proc_one (fun a => (.ok (enc a) : Except Unit (List β))) l
      = .ok (pureWorker enc l) := by
  induction l with
  | nil => rfl
  | cons a t ih =>
      rw [call_num_proc_one, single_map_pure]
      by_cases h : (enc a).isEmpty
      · rw [if_pos h, ih]
        simp [pureWorker, List.filterMap_cons, h]
      · rw [if_neg h, ih]
        simp [pureWorker, List.filterMap_cons, h]

/-- Per-shard worker outputs concatenate to the whole-dataset outcome. -/
theorem pureWorker_flatten (enc : α → List β) (L : List (List α)) :
    (L.map (pureWorker enc)).flatten = pureWorker enc L.flatten := by
  induction L with
  | nil => rfl
  | cons s t ih =>
      simp only [List.map_cons, List.flatten_cons, ih, pureWorker, List.filterMap_append]

/-- Writing each rank's result into its slot, in any order that covers every
rank exactly once, reassembles the results in rank order. -/
theorem set_perm_assemble (results : List γ) (order : List Nat) (dflt : γ)
    (h : order.Perm (List.range results.length)) :
    ((order.foldl (fun acc r => acc.set r (some (results.getD r dflt)))
        (List.replicate results.length (none : Option γ))).map (fun r => r.getD dflt))
      = results := by
  apply List.ext_getElem?
  intro j
  rw [List.getElem?_map, foldl_set_getElem? (fun r => results.getD r dflt) order _ j]
  rw [List.length_replicate]
  have hmem : j ∈ order ↔ j < results.length := by
    rw [h.mem_iff, List.mem_range]
  by_cases hj : j < results.length
  · rw [if_pos ⟨hmem.mpr hj, hj⟩]
    rw [List.getElem?_eq_getElem hj]
    simp [List.getD_eq_getElem?_getD, List.getElem?_eq_getElem hj]
  · rw [if_neg (by rw [hmem]; omega)]
    rw [List.getElem?_eq_none (by simpa using hj), List.getElem?_eq_none (by omega)]
    rfl

/-- `mp_map` under a never-raising encoder equals the whole-dataset eager
outcome, for every completion order that delivers each rank once. -/
theorem mp_map_pure (enc : α → List β) (dataset : List α) (num_proc : Nat)
    (order : List Nat) (hp : 1 ≤ num_proc)
    (ho : order.Perm (List.range (min num_proc dataset.length))) :
    mp_map (fun a => (.ok (enc a) : Except Unit (List β))) dataset num_proc order
      = .ok (pureWorker enc dataset) := by
  have hshards : mapExcept
      (_map_mp_single (fun a => (.ok (enc a) : Except Unit (List β))))
      ((List.range (min num_proc dataset.length)).map
        (fun rank => contiguousShard (min num_proc dataset.length) rank dataset))
      = .ok (((List.range (min num_proc dataset.length)).map
          (fun rank => contiguousShard (min num_proc dataset.length) rank dataset)).map
          (pureWorker enc)) :=
    mapExcept_congr_ok _ _ _ (fun s _ => map_mp_single_pure enc s)
  unfold mp_map
  dsimp only
  rw [hshards]
  have hlen : (((List.range (min num_proc dataset.length)).map
      (fun rank => contiguousShard (min num_proc dataset.length) rank dataset)).map
      (pureWorker enc)).length = min num_proc dataset.length := by
    simp
  have hassemble := set_perm_assemble
    (((List.range (min num_proc dataset.length)).map
      (fun rank => contiguousShard (min num_proc dataset.length) rank dataset)).map
      (pureWorker enc)) order [] (by rw [hlen]; exact ho)
  rw [hlen] at hassemble
  refine congrArg Except.ok ?_
  rw [hassemble, List.map_map]
  cases hds : dataset with
  | nil => simp [pureWorker]
  | cons x xs =>
      have hnp0 : min num_proc dataset.length ≠ 0 := by
        rw [hds]
        simp only [List.length_cons]
        omega
      rw [← hds]
      have hflat := pureWorker_flatten enc
        ((List.range (min num_proc dataset.length)).map
          (fun rank => contiguousShard (min num_proc dataset.length) rank dataset))
      rw [List.map_map] at hflat
      rw [hflat, flatten_shards _ _ hnp0]

end EncodePreprocessor


namespace LLMIterableDataset

-- composition of runs
lemma iterRun_add (pass_ : List (Fetch α)) (m : Nat) (s : Nat × Nat) (k1 k2 : Nat) :
    iterRun pass_ m s (k1 + k2)
      = match iterRun pass_ m s k1 with
        | (out, none) => (out, none)
        | (out, some s') =>
            (out ++ (iterRun pass_ m s' k2).1, (iterRun pass_ m s' k2).2) := by
  induction k1 generalizing s with
  | zero => simp [iterRun]
  | succ k1 ih =>
      have h12 : k1 + 1 + k2 = (k1 + k2) + 1 := by omega
      rw [h12, iterRun]
      cases hstep : iterStep pass_ m s with
      | mk out fin =>
          cases fin with
          | none =>
              rw [iterRun, hstep]
          | some s' =>
              rw [iterRun, hstep]
              dsimp only
              rw [ih s']
              cases h1 : iterRun pass_ m s' k1 with
              | mk out1 fin1 =>
                  cases fin1 with
                  | none => simp
                  | some s'' => simp [List.append_assoc]

lemma leadNones_get?_ne (l : List (Fetch α)) : l.get? (leadNones l) ≠ some none := by
  induction l with
  | nil => simp
  | cons hd t ih =>
      cases hd with
      | none => simpa [leadNones] using ih
      | some a => simp [leadNones]

lemma leadNones_lt_length (l : List (Fetch α)) (a : α) (h : some a ∈ l) :
    leadNones l < l.length := by
  induction l with
  | nil => simp at h
  | cons hd t ih =>
      cases hd with
      | none =>
          have hmem : some a ∈ t := by
            rcases List.mem_cons.mp h with h1 | h1
            · exact absurd h1 (by simp)
            · exact h1
          have hlt := ih hmem
          simp only [leadNones, List.length_cons]
          omega
      | some b => simp [leadNones]

lemma get?_eq_leadNones_head (pass_ : List (Fetch α)) (pos : Nat) :
    pass_.get? pos = (pass_.drop pos).get? 0 := by
  rw [List.get?_drop]
  rfl

lemma leadNones_succ_of_get_none (pass_ : List (Fetch α)) (pos : Nat)
    (h : pass_.get? pos = some none) :
    leadNones (pass_.drop pos) = leadNones (pass_.drop (pos + 1)) + 1 := by
  have h0 : (pass_.drop pos).get? 0 = some none := by
    rw [← get?_eq_leadNones_head]; exact h
  cases hd : pass_.drop pos with
  | nil => rw [hd] at h0; simp at h0
  | cons x t =>
      rw [hd] at h0
      simp only [List.get?] at h0
      have hx : x = none := by injection h0
      subst hx
      have ht : pass_.drop (pos + 1) = t := by
        have := List.drop_drop 1 pos pass_
        rw [hd] at this
        simpa [Nat.add_comm] using this.symm
      rw [ht, leadNones]

-- traversing j consecutive failures
lemma run_through_nones (pass_ : List (Fetch α)) (m : Nat) :
    ∀ (j pos r : Nat), leadNones (pass_.drop pos) = j → r + j < m →
    iterRun pass_ m (pos, r) j = ([], some (pos + j, r + j)) := by
  intro j
  induction j with
  | zero => intro pos r _ _; simp [iterRun]
  | succ j ih =>
      intro pos r hlead hrm
      have hget : pass_.get? pos = some none := by
        cases hd : pass_.drop pos with
        | nil => rw [hd] at hlead; simp [leadNones] at hlead
        | cons x t =>
            cases x with
            | some a => rw [hd] at hlead; simp [leadNones] at hlead
            | none =>
                rw [get?_eq_leadNones_head, hd]
                rfl
      have hlead' : leadNones (pass_.drop (pos + 1)) = j := by
        have := leadNones_succ_of_get_none pass_ pos hget
        omega
      rw [iterRun]
      have hstep : iterStep pass_ m (pos, r) = (none, some (pos + 1, r + 1)) := by
        unfold iterStep
        rw [if_pos (by omega : (pos, r).2 < m)]
        simp only
        rw [hget]
        rw [if_neg (by omega : ¬ m ≤ r + 1)]
      rw [hstep]
      dsimp only
      rw [ih (pos + 1) (r + 1) hlead' (by omega)]
      simp only [Option.toList_none, List.nil_append]
      have e1 : pos + 1 + j = pos + (j + 1) := by omega
      have e2 : r + 1 + j = r + (j + 1) := by omega
      rw [e1, e2]

lemma yield_at_some (pass_ : List (Fetch α)) (m : Nat) (pos r : Nat) (a : α)
    (hr : r < m) (hget : pass_.get? pos = some (some a)) :
    iterRun pass_ m (pos, r) 1 = ([a], some (pos + 1, 0)) := by
  rw [iterRun]
  have hstep : iterStep pass_ m (pos, r) = (some a, some (pos + 1, 0)) := by
    unfold iterStep
    rw [if_pos (by omega : (pos, r).2 < m)]
    simp only
    rw [hget]
  rw [hstep]
  dsimp only
  rfl

lemma restart_at_end (pass_ : List (Fetch α)) (m : Nat) (pos r : Nat)
    (hr : r < m) (hget : pass_.get? pos = none) :
    iterRun pass_ m (pos, r) 1 = ([], some (0, 0)) := by
  rw [iterRun]
  have hstep : iterStep pass_ m (pos, r) = (none, some (0, 0)) := by
    unfold iterStep
    rw [if_pos (by omega : (pos, r).2 < m)]
    simp only
    rw [hget]
  rw [hstep]
  dsimp only
  rfl

-- a full inner traversal ending in a yield
lemma yield_from (pass_ : List (Fetch α)) (m : Nat) (pos : Nat) (a : α)
    (hm : leadNones (pass_.drop pos) < m)
    (hget : pass_.get? (pos + leadNones (pass_.drop pos)) = some (some a)) :
    iterRun pass_ m (pos, 0) (leadNones (pass_.drop pos) + 1)
      = ([a], some (pos + leadNones (pass_.drop pos) + 1, 0)) := by
  rw [iterRun_add]
  rw [run_through_nones pass_ m (leadNones (pass_.drop pos)) pos 0 rfl (by omega)]
  dsimp only
  rw [yield_at_some pass_ m (pos + leadNones (pass_.drop pos))
    (0 + leadNones (pass_.drop pos)) a (by omega) hget]
  simp

-- a full inner traversal ending in a restart
lemma restart_from (pass_ : List (Fetch α)) (m : Nat) (pos : Nat)
    (hm : leadNones (pass_.drop pos) < m)
    (hget : pass_.get? (pos + leadNones (pass_.drop pos)) = none) :
    iterRun pass_ m (pos, 0) (leadNones (pass_.drop pos) + 1)
      = ([], some (0, 0)) := by
  rw [iterRun_add]
  rw [run_through_nones pass_ m (leadNones (pass_.drop pos)) pos 0 rfl (by omega)]
  dsimp only
  rw [restart_at_end pass_ m (pos + leadNones (pass_.drop pos))
    (0 + leadNones (pass_.drop pos)) (by omega) hget]
  simp

lemma get?_add_leadNones (pass_ : List (Fetch α)) (pos : Nat) :
    pass_.get? (pos + leadNones (pass_.drop pos)) ≠ some none := by
  have h := leadNones_get?_ne (pass_.drop pos)
  rw [List.get?_drop] at h
  exact h

-- from the start of a pass that contains a valid example, the first
-- traversal yields it
lemma yield_from_start (pass_ : List (Fetch α)) (m : Nat) (a : α)
    (ha : some a ∈ pass_) (hm : leadNones pass_ < m) :
    ∃ b : α, iterRun pass_ m (0, 0) (leadNones pass_ + 1)
      = ([b], some (leadNones pass_ + 1, 0)) := by
  have hlt : leadNones pass_ < pass_.length := leadNones_lt_length pass_ a ha
  have hd0 : pass_.drop 0 = pass_ := List.drop_zero pass_
  cases hget : pass_.get? (leadNones pass_) with
  | none =>
      rw [List.get?_eq_none] at hget
      omega
  | some x =>
      cases x with
      | none => exact absurd hget (by simpa [hd0] using get?_add_leadNones pass_ 0)
      | some b =>
          refine ⟨b, ?_⟩
          have := yield_from pass_ m 0 b (by rw [hd0]; omega)
            (by rw [hd0]; simpa using hget)
          simpa [hd0] using this

-- from any inter-yield state, the loop yields again within a bounded
-- number of fetches
lemma one_cycle (pass_ : List (Fetch α)) (m : Nat) (pos : Nat) (a : α)
    (ha : some a ∈ pass_)
    (hln : ∀ p : Nat, leadNones (pass_.drop p) < m) :
    ∃ k out pos2, 1 ≤ k ∧ iterRun pass_ m (pos, 0) k = (out, some (pos2, 0))
      ∧ 1 ≤ out.length := by
  cases hget : pass_.get? (pos + leadNones (pass_.drop pos)) with
  | some x =>
      cases x with
      | none => exact absurd hget (get?_add_leadNones pass_ pos)
      | some b =>
          exact ⟨leadNones (pass_.drop pos) + 1, [b],
            pos + leadNones (pass_.drop pos) + 1, by omega,
            yield_from pass_ m pos b (hln pos) hget, by simp⟩
  | none =>
      have hrestart := restart_from pass_ m pos (hln pos) hget
      have hstart := yield_from_start pass_ m a ha (by
        have := hln 0
        rwa [List.drop_zero] at this)
      obtain ⟨b, hb⟩ := hstart
      refine ⟨(leadNones (pass_.drop pos) + 1) + (leadNones pass_ + 1), [b],
        leadNones pass_ + 1, by omega, ?_, by simp⟩
      rw [iterRun_add, hrestart]
      dsimp only
      rw [hb]
      simp

-- the yielded stream is unbounded
lemma chain_yields (pass_ : List (Fetch α)) (m : Nat) (a : α)
    (ha : some a ∈ pass_)
    (hln : ∀ p : Nat, leadNones (pass_.drop p) < m) :
    ∀ N : Nat, ∃ fuel out pos2, iterRun pass_ m (0, 0) fuel = (out, some (pos2, 0))
      ∧ N ≤ out.length := by
  intro N
  induction N with
  | zero => exact ⟨0, [], 0, rfl, by simp⟩
  | succ N ih =>
      obtain ⟨fuel, out, pos2, hrun, hlen⟩ := ih
      obtain ⟨k, out2, pos3, hk, hrun2, hlen2⟩ := one_cycle pass_ m pos2 a ha hln
      refine ⟨fuel + k, out ++ out2, pos3, ?_, ?_⟩
      · rw [iterRun_add, hrun]
        dsimp only
        rw [hrun2]
      · simp only [List.length_append]
        omega

-- an invariant step: under the consecutive-failure bound, no step raises
lemma iterStep_no_raise (pass_ : List (Fetch α)) (m : Nat) (s : Nat × Nat)
    (hln : ∀ p : Nat, leadNones (pass_.drop p) < m)
    (hs : s.2 + leadNones (pass_.drop s.1) < m) :
    ∃ out s2, iterStep pass_ m s = (out, some s2)
      ∧ s2.2 + leadNones (pass_.drop s2.1) < m := by
  unfold iterStep
  rw [if_pos (by omega : s.2 < m)]
  cases hget : pass_.get? s.1 with
  | none =>
      refine ⟨none, (0, 0), rfl, ?_⟩
      have := hln 0
      rw [List.drop_zero] at this
      simpa using this
  | some x =>
      cases x with
      | some a =>
          refine ⟨some a, (s.1 + 1, 0), rfl, ?_⟩
          simpa using hln (s.1 + 1)
      | none =>
          have hsucc := leadNones_succ_of_get_none pass_ s.1 hget
          rw [if_neg (by omega : ¬ m ≤ s.2 + 1)]
          exact ⟨none, (s.1 + 1, s.2 + 1), rfl, by simp; omega⟩

-- under the bound, the loop never terminates (it never raises, and it has
-- no other exit)
lemma run_no_raise (pass_ : List (Fetch α)) (m : Nat)
    (hln : ∀ p : Nat, leadNones (pass_.drop p) < m) :
    ∀ (fuel : Nat) (s : Nat × Nat), s.2 + leadNones (pass_.drop s.1) < m →
      ∃ out s2, iterRun pass_ m s fuel = (out, some s2)
        ∧ s2.2 + leadNones (pass_.drop s2.1) < m := by
  intro fuel
  induction fuel with
  | zero => intro s hs; exact ⟨[], s, rfl, hs⟩
  | succ fuel ih =>
      intro s hs
      obtain ⟨out, s2, hstep, hs2⟩ := iterStep_no_raise pass_ m s hln hs
      obtain ⟨out2, s3, hrun, hs3⟩ := ih s2 hs2
      refine ⟨out.toList ++ out2, s3, ?_, hs3⟩
      rw [iterRun, hstep]
      dsimp only
      rw [hrun]

/-- Claim C10 (amended): over a dataset whose pass contains at least one
valid (truthy) example and in which fewer than `max_retries` consecutive
fetches fail, `LLMIterableDataset.__iter__` never terminates: it never
raises, exhaustion of the wrapped iterator (`StopIteration`) restarts a
fresh iterator from position 0, and the stream of yielded examples is
unbounded.  In general — with or without the consecutive-failure bound —
the iteration has no normal-termination exit at all: a step ends the
iteration only by re-raising a failing example's error once the retry
counter has reached `max_retries` within one inner loop. -/
theorem C10_iteration_amended (pass_ : List (Fetch α)) (m : Nat)
    (h1 : 1 ≤ m)
    (h2 : ∀ pos, pos < pass_.length → leadNones (pass_.drop pos) < m)
    (h3 : ∃ a : α, some a ∈ pass_) :
    (∀ fuel, (iterRun pass_ m (0, 0) fuel).2 ≠ none)
    ∧ (∀ N, ∃ fuel, N ≤ (iterRun pass_ m (0, 0) fuel).1.length)
    ∧ (∀ pos r, r < m → pass_.length ≤ pos →
        iterStep pass_ m (pos, r) = (none, some (0, 0)))
    ∧ (∀ s : Nat × Nat, (iterStep pass_ m s).2 = none →
        pass_.get? s.1 = some none ∧ m ≤ s.2 + 1 ∧ s.2 < m) := by
  obtain ⟨a, ha⟩ := h3
  have hln : ∀ p : Nat, leadNones (pass_.drop p) < m := by
    intro p
    rcases Nat.lt_or_ge p pass_.length with hp | hp
    · exact h2 p hp
    · rw [List.drop_eq_nil_of_le hp]
      simpa [leadNones] using h1
  refine ⟨?_, ?_, ?_, ?_⟩
  · intro fuel
    obtain ⟨out, s2, hrun, _⟩ := run_no_raise pass_ m hln fuel (0, 0) (by
      simpa [List.drop_zero] using hln 0)
    rw [hrun]
    simp
  · intro N
    obtain ⟨fuel, out, pos2, hrun, hlen⟩ := chain_yields pass_ m a ha hln N
    exact ⟨fuel, by rw [hrun]; exact hlen⟩
  · intro pos r hr hpos
    unfold iterStep
    rw [if_pos (by omega : ((pos, r) : Nat × Nat).2 < m)]
    have hget : pass_.get? pos = none := by
      rw [List.get?_eq_none]
      exact hpos
    dsimp only
    rw [hget]
  · intro s hs
    unfold iterStep at hs
    by_cases hguard : s.2 < m
    · rw [if_pos hguard] at hs
      cases hget : pass_.get? s.1 with
      | none => rw [hget] at hs; simp at hs
      | some x =>
          cases x with
          | some b => rw [hget] at hs; simp at hs
          | none =>
              rw [hget] at hs
              by_cases hraise : m ≤ s.2 + 1
              · exact ⟨rfl, hraise, hguard⟩
              · rw [if_neg hraise] at hs
                simp at hs
    · rw [if_neg hguard] at hs
      simp at hs

end LLMIterableDataset

/-- Claim C6 counterexample: an example whose encode step raises does not
get skipped — the eager pass aborts.  With an encoder that raises on the
middle example of `[0, 1, 2]`, both the sequential `num_proc = 1` pass and
the parallel worker body propagate the error instead of completing over the
remaining examples. -/
theorem C6_encode_error_aborts_counterexample :
    EncodePreprocessor.call_num_proc_one
        (fun n : Nat => if n = 1 then (Except.error "boom" : Except String (List Nat))
          else .ok [n])
        [0, 1, 2] = .error "boom"
    ∧ EncodePreprocessor._map_mp_single
        (fun n : Nat => if n = 1 then (Except.error "boom" : Except String (List Nat))
          else .ok [n])
        [0, 1, 2] = .error "boom" := by
  exact ⟨rfl, rfl⟩

/-- Claim C6 (amended): during eager pre-encoding, an individual example
whose encode step returns an empty (falsy) result is skipped and the pass
completes over the remaining examples; an example whose encode step raises
an exception is not recovered — the error propagates and aborts the pass
(per-example retry/skip of raised errors exists only in the lazy paths, not
here). -/
theorem C6_eager_pass_amended (encode : α → Except ε (List β)) (dataset : List α) :
    EncodePreprocessor.call_num_proc_one encode dataset
      = EncodePreprocessor.amendedEagerPassSpec encode dataset := by
  induction dataset with
  | nil => rfl
  | cons a rest ih =>
      rw [EncodePreprocessor.call_num_proc_one, EncodePreprocessor.amendedEagerPassSpec,
        EncodePreprocessor.single_map]
      cases h : encode a with
      | error e => rfl
      | ok d =>
          dsimp only
          rw [ih]
          cases hspec : EncodePreprocessor.amendedEagerPassSpec encode rest <;>
            by_cases hemp : d.isEmpty <;>
              simp [hemp]

/-- Claim C7: for every dataset and worker count, parallel eager encoding
splits the input into contiguous shards (`min num_proc n` of them, one per
worker process), and reassembly places shard `i`'s encoded results at
position `i` of the final concatenation for *every* completion order of the
workers — the outcome always equals the rank-ordered concatenation of the
per-shard results, which is exactly the sequential (`num_proc = 1`) eager
result.  `order` is the arbitrary order in which the workers' final
`(rank, res)` messages are consumed; the encoder is assumed not to raise
(a raising encoder crashes a worker — claim C6). -/
theorem C7_mp_map_preserves_shard_order (enc : α → List β) (dataset : List α)
    (num_proc : Nat) (order : List Nat) (hp : 1 ≤ num_proc)
    (ho : order.Perm (List.range (min num_proc dataset.length))) :
    EncodePreprocessor.mp_map (fun a => (.ok (enc a) : Except Unit (List β)))
        dataset num_proc order
      = .ok (((List.range (min num_proc dataset.length)).map (fun rank =>
          EncodePreprocessor.pureWorker enc
            (EncodePreprocessor.contiguousShard (min num_proc dataset.length) rank
              dataset))).flatten)
    ∧ EncodePreprocessor.mp_map (fun a => (.ok (enc a) : Except Unit (List β)))
        dataset num_proc order
      = EncodePreprocessor.call_num_proc_one
          (fun a => (.ok (enc a) : Except Unit (List β))) dataset := by
  have hpure := EncodePreprocessor.mp_map_pure enc dataset num_proc order hp ho
  constructor
  · rw [hpure]
    refine congrArg Except.ok ?_
    cases hds : dataset with
    | nil => simp [EncodePreprocessor.pureWorker]
    | cons x xs =>
        have hnp0 : min num_proc dataset.length ≠ 0 := by
          rw [hds]
          simp only [List.length_cons]
          omega
        rw [← hds]
        have hflat := EncodePreprocessor.pureWorker_flatten enc
          ((List.range (min num_proc dataset.length)).map
            (fun rank => EncodePreprocessor.contiguousShard
              (min num_proc dataset.length) rank dataset))
        rw [List.map_map] at hflat
        simp only [Function.comp_def] at hflat
        rw [hflat, EncodePreprocessor.flatten_shards _ _ hnp0]
  · rw [hpure, EncodePreprocessor.call_num_proc_one_pure]

/-- Witness for C7: 5 examples, 2 workers, completion order reversed
(`[1, 0]`) — the result still lists shard 0's encodings before shard 1's,
matching the sequential pass. -/
theorem C7_mp_map_preserves_shard_order_witness :
    EncodePreprocessor.mp_map (fun a : Nat => (.ok [a] : Except Unit (List Nat)))
        [1, 2, 3, 4, 5] 2 [1, 0]
      = .ok (((List.range (min 2 ([1, 2, 3, 4, 5] : List Nat).length)).map (fun rank =>
          EncodePreprocessor.pureWorker (fun a : Nat => [a])
            (EncodePreprocessor.contiguousShard (min 2 ([1, 2, 3, 4, 5] : List Nat).length)
              rank [1, 2, 3, 4, 5]))).flatten)
    ∧ EncodePreprocessor.mp_map (fun a : Nat => (.ok [a] : Except Unit (List Nat)))
        [1, 2, 3, 4, 5] 2 [1, 0]
      = EncodePreprocessor.call_num_proc_one
          (fun a : Nat => (.ok [a] : Except Unit (List Nat))) [1, 2, 3, 4, 5] :=
  C7_mp_map_preserves_shard_order (fun a => [a]) [1, 2, 3, 4, 5] 2 [1, 0]
    (by decide) (by decide)

/-- Claim C10 counterexample: the pass `[some 1, none, none]` yields at
least one valid example per pass, yet with `max_retries = 2` the iteration
terminates — after yielding the single example it hits two consecutive
failed fetches and re-raises (final state `none`), so the stream is not
unbounded and iteration does not run forever. -/
theorem C10_bounded_stream_counterexample :
    LLMIterableDataset.iterRun ([some 1, none, none] : List (Option Nat)) 2 (0, 0) 10
      = ([1], none) := by
  decide

/-- Witness for C10: for the pass `[some 5, none]` with `max_retries = 2`
(one valid example, at most one consecutive failure) the amended theorem
applies: a 7-fetch run is still going, a fetch past the end of the pass
restarts at position 0, and the step from state `(1, 1)` — a failing fetch
with the retry budget exhausted — is the re-raise exit. -/
theorem C10_iteration_amended_witness :
    (LLMIterableDataset.iterRun ([some 5, none] : List (Option Nat)) 2 (0, 0) 7).2 ≠ none
    ∧ LLMIterableDataset.iterStep ([some 5, none] : List (Option Nat)) 2 (5, 0)
        = (none, some (0, 0))
    ∧ (([some 5, none] : List (Option Nat)).get? 1 = some none ∧ 2 ≤ 1 + 1 ∧ 1 < 2) := by
  refine ⟨?_, ?_, ?_⟩
  · exact (LLMIterableDataset.C10_iteration_amended [some 5, none] 2 (by decide)
      (by decide) ⟨5, by decide⟩).1 7
  · exact (LLMIterableDataset.C10_iteration_amended [some 5, none] 2 (by decide)
      (by decide) ⟨5, by decide⟩).2.2.1 5 0 (by decide) (by decide)
  · exact (LLMIterableDataset.C10_iteration_amended [some 5, none] 2 (by decide)
      (by decide) ⟨5, by decide⟩).2.2.2 (1, 1) (by decide)

end MSSwift
